import Mathlib

/-!
Shallow embedding of the KubeVirt `host-disk` materialization engine
(`pkg/host-disk/host-disk.go`) and of the configuration-convergence helpers
(`tests/utils.go`), together with theorems checking the natural-language
specification against the code.

Machine integers are modelled as `Nat`/`Int` with explicit wrap-around
(`% 2^64`) where Go's fixed-width arithmetic matters.  Filesystem and
Kubernetes side effects are modelled by an explicit environment record and an
effect trace.
-/

/-- Two to the sixty-fourth, the modulus of Go's `uint64` arithmetic. -/
def U64MOD : Nat := 2 ^ 64

/-- Go `uint64` multiplication: wraps modulo `2^64`. -/
def mul64 (a b : Nat) : Nat := (a % U64MOD) * (b % U64MOD) % U64MOD

/-- Go `uint64` subtraction: wraps modulo `2^64` (no underflow guard). -/
def sub64 (a b : Nat) : Nat := (a % U64MOD + (U64MOD - b % U64MOD)) % U64MOD

/-- Go's conversion `int64(x)` of a `uint64` value: reinterpret the low 64
bits as a two's-complement signed integer. -/
def toInt64ofUInt64 (n : Nat) : Int :=
  if n % U64MOD < 2 ^ 63 then ((n % U64MOD : Nat) : Int)
  else ((n % U64MOD : Nat) : Int) - (U64MOD : Int)

/-- Go's conversion `uint64(x)` of an `int64` value: the value modulo `2^64`,
as a natural number. -/
def toUInt64ofInt64 (n : Int) : Nat := (n % (U64MOD : Int)).toNat

/-- Go `int64` wrap-around: reduce an unbounded integer to the `int64` range
`[-2^63, 2^63)` modulo `2^64` (the result of any overflowing Go `int64`
operation). -/
def wrapInt64 (n : Int) : Int := (n + 2 ^ 63) % (U64MOD : Int) - 2 ^ 63

/-- Go `int64` multiplication: wraps modulo `2^64`. -/
def mulInt64 (a b : Int) : Int := wrapInt64 (a * b)

/-- Go `int64` truncating division (`/` on Go integers rounds toward zero). -/
def divInt64 (a b : Int) : Int := Int.tdiv a b

/-- `path.Join` from Go's `path` package, restricted to already-clean
components: empty elements are dropped and the rest joined with `/`
(`path.Join` additionally calls `path.Clean`, which is the identity on the
already-clean paths this code builds). -/
def pathJoin (parts : List String) : String :=
  String.intercalate "/" (parts.filter (fun p => p ≠ ""))

/-- Go `filepath.Base`: `"."` for the empty path, otherwise the last
non-empty `/`-separated component, or `"/"` if the path consists only of
slashes. -/
def filepathBase (p : String) : String :=
  if p = "" then "."
  else
    match ((p.splitOn "/").filter (fun s => s ≠ "")).getLast? with
    | some x => x
    | none => "/"

/-- The global base directory `pvcBaseDir` for PVC-backed disk images. -/
def pvcBaseDir : String := "/var/run/kubevirt-private/vmi-disks"

/-- `EventReasonToleratedSmallPV` from host-disk.go. -/
def EventReasonToleratedSmallPV : String := "ToleratedSmallPV"

/-- `EventTypeToleratedSmallPV` from host-disk.go: `k8sv1.EventTypeNormal`,
whose value is the string `"Normal"`. -/
def EventTypeToleratedSmallPV : String := "Normal"

/-- `k8sv1.EventTypeWarning`, the string `"Warning"`. -/
def EventTypeWarning : String := "Warning"

/-- `v1.HostDiskExistsOrCreate` (the `HostDiskType` string constant
`"DiskExistsOrCreate"`). -/
def HostDiskExistsOrCreate : String := "DiskExistsOrCreate"

/-- `v1.HostDiskExists` (the `HostDiskType` string constant `"Disk"`). -/
def HostDiskExists : String := "Disk"

/-- `getPVCDiskImgPath(volumeName, diskName)`:
`path.Join(pvcBaseDir, volumeName, diskName)`. -/
def getPVCDiskImgPath (volumeName diskName : String) : String :=
  pathJoin [pvcBaseDir, volumeName, diskName]

/-- `GetMountedHostDiskPath(volumeName, path)`:
`getPVCDiskImgPath(volumeName, filepath.Base(path))`. -/
def GetMountedHostDiskPath (volumeName p : String) : String :=
  getPVCDiskImgPath volumeName (filepathBase p)

/-- `GetMountedHostDiskDir(volumeName)`: `getPVCDiskImgPath(volumeName, "")`. -/
def GetMountedHostDiskDir (volumeName : String) : String :=
  getPVCDiskImgPath volumeName ""

/-- `v1.HostDisk`: `Capacity` models the resource quantity's `AsInt64()`
value; `Shared` is a nullable bool pointer. -/
structure HostDisk where
  path : String
  typ : String
  capacity : Int
  shared : Option Bool
deriving Repr, DecidableEq

/-- `v1.VolumeSource`, restricted to the two alternatives this code reads and
writes: a PVC claim name and a HostDisk.  Other source kinds never influence
these functions. -/
structure VolumeSource where
  persistentVolumeClaim : Option String
  hostDisk : Option HostDisk
deriving Repr, DecidableEq

/-- `v1.Volume`: a name plus its volume source. -/
structure Volume where
  name : String
  volumeSource : VolumeSource
deriving Repr, DecidableEq

/-- `k8sv1.PersistentVolumeMode`: the two values defined by the Kubernetes
API. -/
inductive VolumeMode where
  | Block
  | Filesystem
deriving Repr, DecidableEq

/-- `v1.PersistentVolumeClaimInfo`: nullable volume mode, the access-mode
list, and the storage capacity (`Capacity[k8sv1.ResourceStorage]`, modelled
by its `AsInt64()` value). -/
structure PersistentVolumeClaimInfo where
  volumeMode : Option VolumeMode
  accessModes : List String
  capacityStorage : Int
deriving Repr, DecidableEq

/-- `v1.VolumeStatus`: name, whether `HotplugVolume != nil`, and the nullable
`PersistentVolumeClaimInfo`. -/
structure VolumeStatus where
  name : String
  hotplugVolume : Bool
  persistentVolumeClaimInfo : Option PersistentVolumeClaimInfo
deriving Repr, DecidableEq

/-- The slice of a `v1.VirtualMachineInstance` that
`ReplacePVCByHostDisk`/`Create` read and write: the spec's volume list, the
names of `Spec.Domain.Devices.Filesystems` entries, and
`Status.VolumeStatus`. -/
structure VMI where
  volumes : List Volume
  filesystems : List String
  volumeStatus : List VolumeStatus
deriving Repr, DecidableEq

/-- Outcome of `ephemeraldiskutils.DefaultOwnershipManager.SetFileOwnership`:
success, an error for which `os.IsNotExist` holds, or any other error. -/
inductive OwnResult where
  | ok
  | errNotExist
  | errOther (msg : String)
deriving Repr, DecidableEq

/-- An observable side effect of the materializer, in execution order. -/
inductive Effect where
  | probe (dir : String) (reserve : Nat)
  | createFile (path : String)
  | alloc (path : String) (size : Int)
  | event (severity reason message : String)
  | chown (path : String)
deriving Repr, DecidableEq

/-- Structured rendering of the errors host-disk.go returns, carrying exactly
the data each `fmt.Errorf`/returned error embeds. -/
inductive CreateErr where
  | fileCheckErr (msg : String)
  | probeErr (msg : String)
  | notEnoughSpace (path : String) (demanded : Nat) (available : Int) (toleration : Int)
  | allocErr (msg : String)
  | ownershipErr (path : String)
deriving Repr, DecidableEq

/-- The external world the materializer touches: file-existence checks
(`ephemeraldiskutils.FileExists`), the injectable capacity probe
(`dirBytesAvailableFunc`, returning a `uint64` byte count), `os.Create` /
`WriteAt` failures, ownership normalization, and the notifier's
`SendK8sEvent` result (which the code only logs). -/
structure FsEnv where
  fileExists : String → Except String Bool
  bytesAvail : String → Nat → Except String Nat
  createErr : String → Option String
  writeErr : String → Option String
  ownership : String → OwnResult
  sendEvent : String → String → String → Option String

/-- `DiskImgCreator` (the probe function lives in `FsEnv`):
toleration percentage and reserve bytes. -/
structure DiskImgCreator where
  lessPVCSpaceToleration : Int
  minimumPVCReserveBytes : Nat
deriving Repr, DecidableEq

/-- `dirBytesAvailable`'s arithmetic on a successful `statfs`:
`stat.Bavail*uint64(stat.Bsize) - reserve` in wrapping `uint64` arithmetic,
with no underflow guard. -/
def dirBytesAvailableVal (bavail bsize reserve : Nat) : Nat :=
  sub64 (mul64 bavail bsize) reserve

/-- `dirBytesAvailable(path, reserve)`: propagate a `statfs` failure,
otherwise return the wrapped subtraction. -/
def dirBytesAvailable (statfs : Except String (Nat × Nat)) (reserve : Nat) :
    Except String Nat :=
  match statfs with
  | .error e => .error e
  | .ok (bavail, bsize) => .ok (dirBytesAvailableVal bavail bsize reserve)

/-- `createSparseRaw(fullPath, size)`: `os.Create` the file, then
`WriteAt([0], size-1)`.  A negative offset makes `WriteAt` fail after the
(empty) file was created. -/
def createSparseRaw (env : FsEnv) (fullPath : String) (size : Int) :
    List Effect × Option CreateErr :=
  match env.createErr fullPath with
  | some e => ([], some (.allocErr e))
  | none =>
    if size - 1 < 0 then
      ([.createFile fullPath], some (.allocErr "writeat: negative offset"))
    else
      match env.writeErr fullPath with
      | some e => ([.createFile fullPath], some (.allocErr e))
      | none => ([.createFile fullPath, .alloc fullPath size], none)

/-- The `fmt.Sprintf` message sent with the `ToleratedSmallPV` event. -/
def shrinkMsg (requestedSize availableSize toleration : Int) : String :=
  "PV size too small: expected " ++ toString requestedSize ++
    " B, found " ++ toString availableSize ++
    " B. Using it anyway, it is within " ++ toString toleration ++ " % toleration"

/-- `shrinkRequestedSize`: compute the tolerated size with Go `int64`
arithmetic (`requestedSize * (100 - toleration) / 100`, truncating); fail if
it still exceeds the available size, otherwise emit the `ToleratedSmallPV`
event (a notifier error is only logged, whence the two identical match arms)
and return the available size. -/
def shrinkRequestedSize (hdc : DiskImgCreator) (env : FsEnv)
    (requestedSize availableSize : Int) (hostDisk : HostDisk) :
    List Effect × Except CreateErr Int :=
  let toleratedSize :=
    divInt64 (mulInt64 requestedSize (wrapInt64 (100 - hdc.lessPVCSpaceToleration))) 100
  if toleratedSize > availableSize then
    ([], .error (.notEnoughSpace hostDisk.path (toUInt64ofInt64 requestedSize)
        availableSize hdc.lessPVCSpaceToleration))
  else
    let msg := shrinkMsg requestedSize availableSize hdc.lessPVCSpaceToleration
    match env.sendEvent EventTypeToleratedSmallPV EventReasonToleratedSmallPV msg with
    | some _ => ([.event EventTypeToleratedSmallPV EventReasonToleratedSmallPV msg],
        .ok availableSize)
    | none => ([.event EventTypeToleratedSmallPV EventReasonToleratedSmallPV msg],
        .ok availableSize)

/-- `handleRequestedSizeAndCreateSparseRaw`: probe available bytes (cast to
`int64`), shrink the requested size when it exceeds them, then allocate the
sparse file. -/
def handleRequestedSizeAndCreateSparseRaw (hdc : DiskImgCreator) (env : FsEnv)
    (diskDir diskPath : String) (hostDisk : HostDisk) :
    List Effect × Option CreateErr :=
  match env.bytesAvail diskDir hdc.minimumPVCReserveBytes with
  | .error e => ([.probe diskDir hdc.minimumPVCReserveBytes], some (.probeErr e))
  | .ok size =>
    let availableSize := toInt64ofUInt64 size
    let requestedSize := hostDisk.capacity
    let (shrinkEffs, szRes) :=
      if requestedSize > availableSize then
        shrinkRequestedSize hdc env requestedSize availableSize hostDisk
      else ([], .ok requestedSize)
    match szRes with
    | .error e => ([.probe diskDir hdc.minimumPVCReserveBytes] ++ shrinkEffs, some e)
    | .ok finalSize =>
      let (allocEffs, allocRes) := createSparseRaw env diskPath finalSize
      ([.probe diskDir hdc.minimumPVCReserveBytes] ++ shrinkEffs ++ allocEffs, allocRes)

/-- `mountHostDiskAndSetOwnership`: check file existence, resolve size and
allocate only when the file is absent, then set ownership (any `SetFileOwnership`
error, including not-exists, is returned here). -/
def mountHostDiskAndSetOwnership (hdc : DiskImgCreator) (env : FsEnv)
    (volumeName : String) (hostDisk : HostDisk) :
    List Effect × Option CreateErr :=
  let diskPath := GetMountedHostDiskPath volumeName hostDisk.path
  let diskDir := GetMountedHostDiskDir volumeName
  match env.fileExists diskPath with
  | .error e => ([], some (.fileCheckErr e))
  | .ok fileEx =>
    let (effs, res) :=
      if fileEx then ([], none)
      else handleRequestedSizeAndCreateSparseRaw hdc env diskDir diskPath hostDisk
    match res with
    | some e => (effs, some e)
    | none =>
      match env.ownership diskPath with
      | .ok => (effs ++ [.chown diskPath], none)
      | .errNotExist => (effs ++ [.chown diskPath], some (.ownershipErr diskPath))
      | .errOther _ => (effs ++ [.chown diskPath], some (.ownershipErr diskPath))

/-- `shouldMountHostDisk(hostDisk)`: non-nil, `Type == ExistsOrCreate`,
non-empty path. -/
def shouldMountHostDisk (hostDisk : Option HostDisk) : Bool :=
  match hostDisk with
  | some hd => hd.typ == HostDiskExistsOrCreate && hd.path != ""
  | none => false

/-- One iteration of `Create`'s loop body for a single volume. -/
def processVolume (hdc : DiskImgCreator) (env : FsEnv) (v : Volume) :
    List Effect × Option CreateErr :=
  if shouldMountHostDisk v.volumeSource.hostDisk then
    match v.volumeSource.hostDisk with
    | some hd => mountHostDiskAndSetOwnership hdc env v.name hd
    | none => ([], none)
  else ([], none)

/-- `Create`'s loop over the volume list: process volumes in declared order,
returning at the first error. -/
def createVolumes (hdc : DiskImgCreator) (env : FsEnv) :
    List Volume → List Effect × Option CreateErr
  | [] => ([], none)
  | v :: vs =>
    match processVolume hdc env v with
    | (effs, some e) => (effs, some e)
    | (effs, none) =>
      let (effs2, res) := createVolumes hdc env vs
      (effs ++ effs2, res)

/-- `DiskImgCreator.Create(vmi)`. -/
def Create (hdc : DiskImgCreator) (env : FsEnv) (vmi : VMI) :
    List Effect × Option CreateErr :=
  createVolumes hdc env vmi.volumes

/-- An effect that mutates the on-disk state of a disk image (file creation
or sparse allocation), as opposed to probes, events, and ownership changes. -/
def Effect.mutatesFile : Effect → Bool
  | .createFile _ => true
  | .alloc _ _ => true
  | _ => false

/-! ## `ReplacePVCByHostDisk` -/

/-- Whether a volume name is declared in
`vmi.Spec.Domain.Devices.Filesystems` (the `passthoughFSVolumes` set). -/
def isPassthoughFSVolume (vmi : VMI) (n : String) : Bool :=
  vmi.filesystems.any (fun f => f == n)

/-- Whether any volume status marks the name as hotplugged (the
`hotplugVolumes` map; a Go map only ever set to `true`). -/
def isHotplugVolume (vmi : VMI) (n : String) : Bool :=
  vmi.volumeStatus.any (fun st => st.hotplugVolume && st.name == n)

/-- The `pvcVolume` map: the volume status for a name among statuses with a
non-nil `PersistentVolumeClaimInfo`; with duplicate names the last write to
the Go map wins. -/
def pvcVolumeLookup (vmi : VMI) (n : String) : Option VolumeStatus :=
  (vmi.volumeStatus.filter
    (fun st => st.persistentVolumeClaimInfo.isSome && st.name == n)).getLast?

/-- The loop body of `ReplacePVCByHostDisk` over the remaining volumes.
`hasShared` models `types.HasSharedAccessMode` (external to this package) and
`own` models `SetFileOwnership`.  Returns the (partially) mutated volume list
and the error, if any: on a fatal ownership error the current volume's
mutation has already happened and the remaining volumes are returned
untouched. -/
def replaceVolumesLoop (vmi : VMI) (hasShared : List String → Bool)
    (own : String → OwnResult) : List Volume → List Volume × Option String
  | [] => ([], none)
  | v :: vs =>
    match v.volumeSource.persistentVolumeClaim with
    | none =>
      let (rest, err) := replaceVolumesLoop vmi hasShared own vs
      (v :: rest, err)
    | some _ =>
      if isPassthoughFSVolume vmi v.name then
        let (rest, err) := replaceVolumesLoop vmi hasShared own vs
        (v :: rest, err)
      else if isHotplugVolume vmi v.name then
        let (rest, err) := replaceVolumesLoop vmi hasShared own vs
        (v :: rest, err)
      else
        match pvcVolumeLookup vmi v.name with
        | none =>
          let (rest, err) := replaceVolumesLoop vmi hasShared own vs
          (v :: rest, err)
        | some st =>
          match st.persistentVolumeClaimInfo with
          | none =>
            let (rest, err) := replaceVolumesLoop vmi hasShared own vs
            (v :: rest, err)
          | some info =>
            if info.volumeMode = none ∨ info.volumeMode = some .Block then
              let (rest, err) := replaceVolumesLoop vmi hasShared own vs
              (v :: rest, err)
            else
              let isShared := hasShared info.accessModes
              let file := getPVCDiskImgPath v.name "disk.img"
              let v' : Volume :=
                { v with volumeSource :=
                  { persistentVolumeClaim := none,
                    hostDisk := some
                      { path := file, typ := HostDiskExistsOrCreate,
                        capacity := info.capacityStorage,
                        shared := some isShared } } }
              match own file with
              | .errOther e => (v' :: vs, some e)
              | _ =>
                let (rest, err) := replaceVolumesLoop vmi hasShared own vs
                (v' :: rest, err)

/-- `ReplacePVCByHostDisk(vmi)`: rewrite eligible PVC-backed volumes to
HostDisk sources in place; returns the mutated VMI together with the error,
if any. -/
def ReplacePVCByHostDisk (hasShared : List String → Bool)
    (own : String → OwnResult) (vmi : VMI) : VMI × Option String :=
  let (vols, err) := replaceVolumesLoop vmi hasShared own vmi.volumes
  ({ vmi with volumes := vols }, err)

/-- Refinement target for the rewrite-selectivity claim, following the
spec's words: a volume is rewritten exactly when it is PVC-backed, not
filesystem-passthrough, not hotplugged, and its status reports Filesystem
volume mode. -/
def specEligibleForRewrite (vmi : VMI) (v : Volume) : Bool :=
  v.volumeSource.persistentVolumeClaim.isSome &&
  !isPassthoughFSVolume vmi v.name &&
  !isHotplugVolume vmi v.name &&
  (match pvcVolumeLookup vmi v.name with
   | some st =>
     match st.persistentVolumeClaimInfo with
     | some info => info.volumeMode == some .Filesystem
     | none => false
   | none => false)

/-- Refinement target, following the spec's words: the rewritten form of an
eligible volume (PVC cleared, HostDisk populated from the status), other
volumes untouched. -/
def specRewriteOne (vmi : VMI) (hasShared : List String → Bool) (v : Volume) :
    Volume :=
  if specEligibleForRewrite vmi v then
    match pvcVolumeLookup vmi v.name with
    | some st =>
      match st.persistentVolumeClaimInfo with
      | some info =>
        { v with volumeSource :=
          { persistentVolumeClaim := none,
            hostDisk := some
              { path := getPVCDiskImgPath v.name "disk.img",
                typ := HostDiskExistsOrCreate,
                capacity := info.capacityStorage,
                shared := some (hasShared info.accessModes) } } }
      | none => v
    | none => v
  else v

/-! ## Convergence helpers from `tests/utils.go` -/

/-- Parse a non-empty run of ASCII digits as a natural number; `none` when a
non-digit occurs or the list is empty. -/
def parseDigits : List Char → Option Nat
  | [] => none
  | cs => go cs 0
where
  go : List Char → Nat → Option Nat
  | [], acc => some acc
  | c :: cs, acc =>
    if c.isDigit then go cs (acc * 10 + (c.toNat - '0'.toNat))
    else none

/-- Go `strconv.ParseInt(s, 10, 32)`: optional sign, decimal digits, and a
range check against `int32`; `none` models a non-nil error. -/
def goParseInt32 (s : String) : Option Int :=
  let signed : Option Int :=
    match s.toList with
    | '+' :: rest => (parseDigits rest).map (fun n => (n : Int))
    | '-' :: rest => (parseDigits rest).map (fun n => -(n : Int))
    | cs => (parseDigits cs).map (fun n => (n : Int))
  match signed with
  | none => none
  | some v => if -(2 ^ 31) ≤ v ∧ v ≤ 2 ^ 31 - 1 then some v else none

/-- `ExpectResourceVersionToBeLessThanConfigVersion`: both strings must parse
as 32-bit decimal integers and the resource version must not exceed the
config version. -/
def ExpectResourceVersionToBeLessThanConfigVersion
    (resourceVersion configVersion : String) : Bool :=
  match goParseInt32 resourceVersion with
  | none => false
  | some rv =>
    match goParseInt32 configVersion with
    | none => false
    | some crv => if rv > crv then false else true

/-- Go's byte-wise lexicographic `<` on strings, expressed on the character
lists (byte order and code-point order agree on UTF-8). -/
def goStrLt : List Char → List Char → Bool
  | [], [] => false
  | [], _ :: _ => true
  | _ :: _, [] => false
  | a :: as_, b :: bs =>
    if a < b then true
    else if b < a then false
    else goStrLt as_ bs

/-- `ExpectResourceVersionToBeEqualConfigVersion`: fails only when the
resource version is lexicographically greater than the config version. -/
def ExpectResourceVersionToBeEqualConfigVersion
    (resourceVersion configVersion : String) : Bool :=
  if goStrLt configVersion.toList resourceVersion.toList then false else true

/-- Outcome of the health probe of one pod: the HTTP call failed, the body
did not parse as JSON, or it reported a `config-resource-version` string. -/
inductive Health where
  | callErr
  | unparsable
  | version (v : String)
deriving Repr, DecidableEq

/-- The slice of a pod `WaitForConfigToBePropagatedToComponent` reads: its
name, whether `DeletionTimestamp != nil`, and its health-endpoint outcome. -/
structure PodM where
  name : String
  terminating : Bool
  health : Health
deriving Repr, DecidableEq

/-- The per-pod check inside the poll closure: pods marked for deletion are
skipped; a failed call, an unparsable body, or a version failing the
comparison produce an error (`some` message). -/
def checkPod (resourceVersion : String) (cmp : String → String → Bool)
    (p : PodM) : Option String :=
  if p.terminating then none
  else
    match p.health with
    | .callErr => some ("failed to call healthz endpoint. pod: " ++ p.name)
    | .unparsable =>
      some ("failed to parse response from healthz endpoint. pod: " ++ p.name)
    | .version v =>
      if cmp resourceVersion v then none
      else some ("resource & config versions (" ++ resourceVersion ++ " and " ++
        v ++ " respectively) are not as expected. pod: " ++ p.name)

/-- One poll iteration of `WaitForConfigToBePropagatedToComponent`: walk the
listed pods and return the first pod-level error, or `none` when every
remaining pod converged. -/
def pollIteration (resourceVersion : String) (cmp : String → String → Bool) :
    List PodM → Option String
  | [] => none
  | p :: ps =>
    match checkPod resourceVersion cmp p with
    | some e => some e
    | none => pollIteration resourceVersion cmp ps

/-- The retry loop (`Eventually`): given the pod lists observed at the
successive poll instants within the timeout, the waiter reports convergence
exactly when some iteration passes completely; earlier failing iterations
only cause a retry. -/
def waitForConfigPropagation (resourceVersion : String)
    (cmp : String → String → Bool) (polls : List (List PodM)) : Bool :=
  polls.any (fun pods => (pollIteration resourceVersion cmp pods).isNone)

/-! ## Theorems -/

theorem goStrLt_iff_lex (a b : List Char) :
    goStrLt a b = true ↔ List.Lex (· < ·) a b := by
  induction a generalizing b with
  | nil =>
    cases b with
    | nil =>
      simp only [goStrLt, Bool.false_eq_true, false_iff]
      exact List.Lex.not_nil_right _ _
    | cons y ys =>
      simp only [goStrLt, true_iff]
      exact List.Lex.nil
  | cons x xs ih =>
    cases b with
    | nil =>
      simp only [goStrLt, Bool.false_eq_true, false_iff]
      exact List.Lex.not_nil_right _ _
    | cons y ys =>
      rcases lt_trichotomy x y with h | h | h
      · simp only [goStrLt, if_pos h, true_iff]
        exact List.Lex.rel h
      · subst h
        have hred : goStrLt (x :: xs) (x :: ys) = goStrLt xs ys := by
          simp [goStrLt]
        rw [hred, ih]
        exact ⟨fun hl => List.Lex.cons hl, fun hl => List.Lex.cons_iff.mp hl⟩
      · have h1 : ¬ x < y := lt_asymm h
        simp only [goStrLt, if_neg h1, if_pos h, Bool.false_eq_true, false_iff]
        intro hl
        cases hl with
        | cons h2 => exact absurd h (lt_irrefl _)
        | rel h2 => exact h1 h2

theorem goStrLt_not_iff_le (a b : List Char) :
    goStrLt b a = false ↔ (a = b ∨ List.Lex (· < ·) a b) := by
  have hconv : ∀ x y : List Char, x < y ↔ List.Lex (· < ·) x y :=
    fun x y => Iff.rfl
  constructor
  · intro h
    rcases lt_trichotomy a b with hl | he | hl
    · exact Or.inr ((hconv a b).mp hl)
    · exact Or.inl he
    · have hT : goStrLt b a = true := (goStrLt_iff_lex b a).mpr ((hconv b a).mp hl)
      rw [h] at hT
      exact absurd hT (by simp)
  · intro h
    cases hg : goStrLt b a with
    | false => rfl
    | true =>
      have hlex := (goStrLt_iff_lex b a).mp hg
      rcases h with he | hl
      · subst he
        exact absurd ((hconv a a).mpr hlex) (lt_irrefl a)
      · exact absurd ((hconv b a).mpr hlex) (lt_asymm ((hconv a b).mpr hl))

/-- **C7**: the numeric comparison policy converges exactly when both version
strings parse as (32-bit) base-10 integers and the parsed target is at most
the parsed observed value; a parse failure of either string yields `false`
(the function is total — no crash); and the lexical policy converges exactly
when the target is lexicographically at most the observed string. -/
theorem version_comparison_policies (t o : String) :
    (ExpectResourceVersionToBeLessThanConfigVersion t o = true ↔
      ∃ a b, goParseInt32 t = some a ∧ goParseInt32 o = some b ∧ a ≤ b) ∧
    ((goParseInt32 t = none ∨ goParseInt32 o = none) →
      ExpectResourceVersionToBeLessThanConfigVersion t o = false) ∧
    (ExpectResourceVersionToBeEqualConfigVersion t o = true ↔
      (t.toList = o.toList ∨ List.Lex (· < ·) t.toList o.toList)) := by
  refine ⟨?_, ?_, ?_⟩
  · unfold ExpectResourceVersionToBeLessThanConfigVersion
    cases ht : goParseInt32 t with
    | none => simp
    | some a =>
      cases ho : goParseInt32 o with
      | none => simp
      | some b =>
        dsimp only
        by_cases h : a > b
        · rw [if_pos h]
          constructor
          · intro hcontra
            exact absurd hcontra (by simp)
          · rintro ⟨a', b', ha', hb', hle⟩
            rw [Option.some_inj] at ha' hb'
            omega
        · rw [if_neg h]
          exact ⟨fun _ => ⟨a, b, rfl, rfl, by omega⟩, fun _ => rfl⟩
  · rintro (h | h) <;>
      unfold ExpectResourceVersionToBeLessThanConfigVersion <;>
      rw [h]
    cases goParseInt32 t <;> rfl
  · unfold ExpectResourceVersionToBeEqualConfigVersion
    cases hg : goStrLt o.toList t.toList with
    | false =>
      rw [if_neg (by simp)]
      exact ⟨fun _ => (goStrLt_not_iff_le t.toList o.toList).mp hg, fun _ => rfl⟩
    | true =>
      rw [if_pos rfl]
      constructor
      · intro hcontra
        exact absurd hcontra (by simp)
      · intro hle
        have h2 := (goStrLt_not_iff_le t.toList o.toList).mpr hle
        rw [hg] at h2
        exact absurd h2 (by simp)

theorem checkPod_eq_none_iff (rv : String) (cmp : String → String → Bool)
    (p : PodM) :
    checkPod rv cmp p = none ↔
      (p.terminating = true ∨
        ∃ v, p.health = .version v ∧ cmp rv v = true) := by
  unfold checkPod
  cases hT : p.terminating with
  | true => simp
  | false =>
    cases hH : p.health with
    | callErr => simp
    | unparsable => simp
    | version v =>
      dsimp only
      cases hc : cmp rv v with
      | true =>
        rw [if_pos rfl]
        constructor
        · intro _
          exact Or.inr ⟨v, rfl, hc⟩
        · intro _
          rfl
      | false =>
        rw [if_neg (by simp)]
        constructor
        · intro hcontra
          exact absurd hcontra (by simp)
        · rintro (hterm | ⟨v', hv', hcmp⟩)
          · exact absurd hterm (by simp)
          · injection hv' with hv
            subst hv
            rw [hc] at hcmp
            exact absurd hcmp (by simp)

/-- **C8**: a poll iteration reports convergence exactly when every listed
pod without a deletion timestamp answered its health call with a parsable
version satisfying the comparison policy (pods marked for deletion are
excluded); and the waiter reports convergence exactly when some iteration
within the timeout passes in full — any pod failing its health call,
returning an unparsable body, or reporting a version failing the comparison
makes that whole iteration not-yet-converged, forcing a retry. -/
theorem convergence_requires_all_pods (rv : String)
    (cmp : String → String → Bool) (pods : List PodM)
    (polls : List (List PodM)) :
    (pollIteration rv cmp pods = none ↔
      ∀ p ∈ pods, p.terminating = false →
        ∃ v, p.health = .version v ∧ cmp rv v = true) ∧
    (waitForConfigPropagation rv cmp polls = true ↔
      ∃ ps ∈ polls, ∀ p ∈ ps, p.terminating = false →
        ∃ v, p.health = .version v ∧ cmp rv v = true) := by
  have hiter : ∀ ps : List PodM,
      pollIteration rv cmp ps = none ↔
        ∀ p ∈ ps, p.terminating = false →
          ∃ v, p.health = .version v ∧ cmp rv v = true := by
    intro ps
    induction ps with
    | nil => simp [pollIteration]
    | cons p ps ih =>
      simp only [pollIteration]
      cases hc : checkPod rv cmp p with
      | some e =>
        constructor
        · intro hcontra
          exact absurd hcontra (by simp)
        · intro hall
          have hnone : checkPod rv cmp p = none := by
            rw [checkPod_eq_none_iff]
            cases hT : p.terminating with
            | true => exact Or.inl rfl
            | false => exact Or.inr (hall p (by simp) hT)
          rw [hc] at hnone
          exact absurd hnone (by simp)
      | none =>
        rw [ih]
        constructor
        · intro hall q hq hterm
          rcases List.mem_cons.mp hq with he | hm
          · subst he
            rcases (checkPod_eq_none_iff rv cmp q).mp hc with h | h
            · rw [hterm] at h
              exact absurd h (by simp)
            · exact h
          · exact hall q hm hterm
        · intro hall q hq
          exact hall q (List.mem_cons_of_mem _ hq)
  refine ⟨hiter pods, ?_⟩
  unfold waitForConfigPropagation
  rw [List.any_eq_true]
  constructor
  · rintro ⟨ps, hmem, hb⟩
    exact ⟨ps, hmem, (hiter ps).mp (Option.isNone_iff_eq_none.mp hb)⟩
  · rintro ⟨ps, hmem, hall⟩
    exact ⟨ps, hmem, Option.isNone_iff_eq_none.mpr ((hiter ps).mpr hall)⟩

/-- **C9**: the capacity probe computes `blocksAvailable * blockSize -
reserve` in wrapping unsigned 64-bit arithmetic with no underflow guard:
whenever the reserve exceeds the product, the probe still succeeds (no
error) and the result wraps modulo `2^64` to a huge value — strictly larger
than the true product and nonzero — and the materializer's subsequent
`int64` cast of that value is negative. -/
theorem probe_underflow_wraps (bavail bsize reserve : Nat)
    (hba : bavail < U64MOD) (hbs : bsize < U64MOD) (hr : reserve < U64MOD)
    (hprod : bavail * bsize < U64MOD)
    (hlt : bavail * bsize < reserve)
    (hhi : reserve ≤ bavail * bsize + 2 ^ 63) :
    dirBytesAvailable (.ok (bavail, bsize)) reserve
        = .ok (bavail * bsize + U64MOD - reserve) ∧
      bavail * bsize + U64MOD - reserve ≠ 0 ∧
      bavail * bsize < bavail * bsize + U64MOD - reserve ∧
      toInt64ofUInt64 (dirBytesAvailableVal bavail bsize reserve) =
        ((bavail * bsize : Nat) : Int) - (reserve : Int) ∧
      toInt64ofUInt64 (dirBytesAvailableVal bavail bsize reserve) < 0 := by
  have hsmall : bavail * bsize + (U64MOD - reserve) < U64MOD := by
    simp only [U64MOD] at *
    omega
  have hval : dirBytesAvailableVal bavail bsize reserve
      = bavail * bsize + U64MOD - reserve := by
    unfold dirBytesAvailableVal mul64 sub64
    rw [Nat.mod_eq_of_lt hba, Nat.mod_eq_of_lt hbs, Nat.mod_eq_of_lt hprod,
      Nat.mod_eq_of_lt hprod, Nat.mod_eq_of_lt hr, Nat.mod_eq_of_lt hsmall]
    simp only [U64MOD] at *
    omega
  have hrange : bavail * bsize + U64MOD - reserve < U64MOD ∧
      2 ^ 63 ≤ bavail * bsize + U64MOD - reserve := by
    simp only [U64MOD] at *
    constructor <;> omega
  have hcast : toInt64ofUInt64 (dirBytesAvailableVal bavail bsize reserve)
      = ((bavail * bsize : Nat) : Int) - (reserve : Int) := by
    rw [hval]
    unfold toInt64ofUInt64
    rw [Nat.mod_eq_of_lt hrange.1]
    rw [if_neg (by simp only [U64MOD] at *; omega)]
    simp only [U64MOD] at *
    omega
  refine ⟨?_, ?_, ?_, hcast, ?_⟩
  · unfold dirBytesAvailable
    dsimp only
    rw [hval]
  · simp only [U64MOD] at *
    omega
  · simp only [U64MOD] at *
    omega
  · rw [hcast]
    have hcl : ((bavail * bsize : Nat) : Int) < (reserve : Int) := by
      exact_mod_cast hlt
    omega

theorem probe_underflow_wraps_witness :
    dirBytesAvailable (.ok (0, 4096)) 1 = .ok (0 * 4096 + U64MOD - 1) ∧
      0 * 4096 + U64MOD - 1 ≠ 0 ∧
      0 * 4096 < 0 * 4096 + U64MOD - 1 ∧
      toInt64ofUInt64 (dirBytesAvailableVal 0 4096 1) =
        ((0 * 4096 : Nat) : Int) - ((1 : Nat) : Int) ∧
      toInt64ofUInt64 (dirBytesAvailableVal 0 4096 1) < 0 :=
  probe_underflow_wraps 0 4096 1 (by norm_num [U64MOD]) (by norm_num [U64MOD])
    (by norm_num [U64MOD]) (by norm_num [U64MOD]) (by norm_num) (by norm_num)

theorem toInt64ofUInt64_of_lt (n : Nat) (h : n < 2 ^ 63) :
    toInt64ofUInt64 n = (n : Int) := by
  unfold toInt64ofUInt64
  have h64 : n < U64MOD := by
    simp only [U64MOD]
    omega
  rw [Nat.mod_eq_of_lt h64, if_pos h]

/-- **C5**: when the requested capacity is at most the probed available bytes
(the probe value being net of the reserve), the sparse file is allocated with
logical length exactly the requested capacity — the reserve is subtracted
only inside the default probe's availability figure, never from the
allocated size. -/
theorem exact_sizing (hdc : DiskImgCreator) (env : FsEnv) (volumeName : String)
    (hd : HostDisk) (avail : Nat)
    (hex : env.fileExists (GetMountedHostDiskPath volumeName hd.path) = .ok false)
    (hav : env.bytesAvail (GetMountedHostDiskDir volumeName)
      hdc.minimumPVCReserveBytes = .ok avail)
    (havB : avail < 2 ^ 63)
    (hreq : hd.capacity ≤ (avail : Int))
    (hpos : 0 < hd.capacity)
    (hce : env.createErr (GetMountedHostDiskPath volumeName hd.path) = none)
    (hwe : env.writeErr (GetMountedHostDiskPath volumeName hd.path) = none)
    (hown : env.ownership (GetMountedHostDiskPath volumeName hd.path) = .ok) :
    mountHostDiskAndSetOwnership hdc env volumeName hd =
      ([.probe (GetMountedHostDiskDir volumeName) hdc.minimumPVCReserveBytes,
        .createFile (GetMountedHostDiskPath volumeName hd.path),
        .alloc (GetMountedHostDiskPath volumeName hd.path) hd.capacity,
        .chown (GetMountedHostDiskPath volumeName hd.path)], none) ∧
    (∀ bavail bsize reserve : Nat, bavail < U64MOD → bsize < U64MOD →
      reserve ≤ bavail * bsize → bavail * bsize < U64MOD →
      dirBytesAvailable (.ok (bavail, bsize)) reserve
        = .ok (bavail * bsize - reserve)) := by
  constructor
  · have hnot : ¬ hd.capacity > toInt64ofUInt64 avail := by
      rw [toInt64ofUInt64_of_lt avail havB]
      omega
    simp only [mountHostDiskAndSetOwnership, handleRequestedSizeAndCreateSparseRaw,
      createSparseRaw, hex, hav, hce, hwe, hown, if_neg hnot,
      if_neg (show ¬ hd.capacity - 1 < 0 by omega)]
    simp
  · intro bavail bsize reserve hba hbs hle hprod
    have hrlt : reserve < U64MOD := lt_of_le_of_lt hle hprod
    unfold dirBytesAvailable
    dsimp only
    unfold dirBytesAvailableVal mul64 sub64
    rw [Nat.mod_eq_of_lt hba, Nat.mod_eq_of_lt hbs, Nat.mod_eq_of_lt hprod,
      Nat.mod_eq_of_lt hprod, Nat.mod_eq_of_lt hrlt]
    congr 1
    simp only [U64MOD] at *
    omega

theorem wrapInt64_eq_self (n : Int) (h0 : -(2 ^ 63) ≤ n) (h1 : n < 2 ^ 63) :
    wrapInt64 n = n := by
  unfold wrapInt64
  have hM : (U64MOD : Int) = 2 ^ 64 := by
    norm_num [U64MOD]
  rw [Int.emod_eq_of_lt (by omega) (by rw [hM]; omega)]
  ring

theorem toUInt64ofInt64_of_nonneg (n : Int) (h0 : 0 ≤ n) (h1 : n < 2 ^ 63) :
    toUInt64ofInt64 n = n.toNat := by
  unfold toUInt64ofInt64
  have hM : (U64MOD : Int) = 2 ^ 64 := by
    norm_num [U64MOD]
  rw [Int.emod_eq_of_lt h0 (by rw [hM]; omega)]

theorem shrinkRequestedSize_eq (hdc : DiskImgCreator) (env : FsEnv)
    (rq av : Int) (hd : HostDisk) :
    shrinkRequestedSize hdc env rq av hd =
      if divInt64 (mulInt64 rq (wrapInt64 (100 - hdc.lessPVCSpaceToleration))) 100 > av then
        ([], .error (.notEnoughSpace hd.path (toUInt64ofInt64 rq) av
            hdc.lessPVCSpaceToleration))
      else
        ([.event EventTypeToleratedSmallPV EventReasonToleratedSmallPV
            (shrinkMsg rq av hdc.lessPVCSpaceToleration)], .ok av) := by
  simp only [shrinkRequestedSize]
  by_cases h :
      divInt64 (mulInt64 rq (wrapInt64 (100 - hdc.lessPVCSpaceToleration))) 100 > av
  · rw [if_pos h, if_pos h]
  · rw [if_neg h, if_neg h]
    cases env.sendEvent EventTypeToleratedSmallPV EventReasonToleratedSmallPV
        (shrinkMsg rq av hdc.lessPVCSpaceToleration) <;> rfl

theorem mount_sendEvent_irrel (hdc : DiskImgCreator) (env : FsEnv)
    (se : String → String → String → Option String) (volumeName : String)
    (hd : HostDisk) :
    mountHostDiskAndSetOwnership hdc { env with sendEvent := se } volumeName hd
      = mountHostDiskAndSetOwnership hdc env volumeName hd := by
  unfold mountHostDiskAndSetOwnership handleRequestedSizeAndCreateSparseRaw createSparseRaw
  simp only [shrinkRequestedSize_eq]

/-- **C1**: for a volume whose target file is absent and whose requested
capacity exceeds the probed available bytes, the tolerated size is
`requested * (100 - toleratePercent) / 100` with truncating integer
division; if it exceeds the available bytes the volume fails with an error
naming the path, requested size, available size and toleration percent and
no file is written; otherwise the sparse file is allocated with size equal
to the available bytes (not the tolerated value) and a `ToleratedSmallPV`
event is emitted — and the notifier's result never changes the outcome. -/
theorem toleration_shrink_behavior (hdc : DiskImgCreator) (env : FsEnv)
    (volumeName : String) (hd : HostDisk) (avail : Nat)
    (hex : env.fileExists (GetMountedHostDiskPath volumeName hd.path) = .ok false)
    (hav : env.bytesAvail (GetMountedHostDiskDir volumeName)
      hdc.minimumPVCReserveBytes = .ok avail)
    (havB : avail < 2 ^ 63)
    (hreq0 : 0 ≤ hd.capacity)
    (hreqB : hd.capacity * 100 < 2 ^ 63)
    (htol0 : 0 ≤ hdc.lessPVCSpaceToleration)
    (htol1 : hdc.lessPVCSpaceToleration ≤ 100)
    (hgt : (avail : Int) < hd.capacity) :
    (Int.tdiv (hd.capacity * (100 - hdc.lessPVCSpaceToleration)) 100 > (avail : Int) →
      mountHostDiskAndSetOwnership hdc env volumeName hd =
        ([.probe (GetMountedHostDiskDir volumeName) hdc.minimumPVCReserveBytes],
          some (.notEnoughSpace hd.path hd.capacity.toNat (avail : Int)
            hdc.lessPVCSpaceToleration))) ∧
    (Int.tdiv (hd.capacity * (100 - hdc.lessPVCSpaceToleration)) 100 ≤ (avail : Int) →
      0 < avail →
      env.createErr (GetMountedHostDiskPath volumeName hd.path) = none →
      env.writeErr (GetMountedHostDiskPath volumeName hd.path) = none →
      env.ownership (GetMountedHostDiskPath volumeName hd.path) = .ok →
      mountHostDiskAndSetOwnership hdc env volumeName hd =
        ([.probe (GetMountedHostDiskDir volumeName) hdc.minimumPVCReserveBytes,
          .event EventTypeToleratedSmallPV EventReasonToleratedSmallPV
            (shrinkMsg hd.capacity (avail : Int) hdc.lessPVCSpaceToleration),
          .createFile (GetMountedHostDiskPath volumeName hd.path),
          .alloc (GetMountedHostDiskPath volumeName hd.path) (avail : Int),
          .chown (GetMountedHostDiskPath volumeName hd.path)], none)) ∧
    (∀ se, mountHostDiskAndSetOwnership hdc { env with sendEvent := se } volumeName hd
        = mountHostDiskAndSetOwnership hdc env volumeName hd) := by
  have hcapB : hd.capacity < 2 ^ 63 := by nlinarith
  have hwrap : wrapInt64 (100 - hdc.lessPVCSpaceToleration)
      = 100 - hdc.lessPVCSpaceToleration := by
    apply wrapInt64_eq_self <;> omega
  have hmul : mulInt64 hd.capacity (100 - hdc.lessPVCSpaceToleration)
      = hd.capacity * (100 - hdc.lessPVCSpaceToleration) := by
    unfold mulInt64
    apply wrapInt64_eq_self
    · nlinarith
    · nlinarith
  have htold : divInt64 (mulInt64 hd.capacity
        (wrapInt64 (100 - hdc.lessPVCSpaceToleration))) 100
      = Int.tdiv (hd.capacity * (100 - hdc.lessPVCSpaceToleration)) 100 := by
    rw [hwrap, hmul]
    rfl
  have hdem : toUInt64ofInt64 hd.capacity = hd.capacity.toNat :=
    toUInt64ofInt64_of_nonneg hd.capacity hreq0 hcapB
  refine ⟨?_, ?_, fun se => mount_sendEvent_irrel hdc env se volumeName hd⟩
  · intro hover
    simp only [mountHostDiskAndSetOwnership, handleRequestedSizeAndCreateSparseRaw,
      hex, hav, shrinkRequestedSize_eq, toInt64ofUInt64_of_lt avail havB,
      if_pos hgt, htold, if_pos hover, hdem]
    simp
  · intro hunder hpos hce hwe hown
    simp only [mountHostDiskAndSetOwnership, handleRequestedSizeAndCreateSparseRaw,
      createSparseRaw, hex, hav, shrinkRequestedSize_eq,
      toInt64ofUInt64_of_lt avail havB, if_pos hgt, htold,
      if_neg (not_lt.mpr hunder), hce, hwe,
      if_neg (show ¬ ((avail : Int) < 1) by omega),
      if_neg (show ¬ ((avail : Int) - 1 < 0) by omega), hown]
    simp

theorem specRewriteOne_not_eligible (vmi : VMI) (hasShared : List String → Bool)
    (v : Volume) (h : specEligibleForRewrite vmi v = false) :
    specRewriteOne vmi hasShared v = v := by
  unfold specRewriteOne
  rw [h]
  simp

theorem specRewriteOne_eligible (vmi : VMI) (hasShared : List String → Bool)
    (v : Volume) (st : VolumeStatus) (info : PersistentVolumeClaimInfo)
    (hl : pvcVolumeLookup vmi v.name = some st)
    (hi : st.persistentVolumeClaimInfo = some info)
    (he : specEligibleForRewrite vmi v = true) :
    specRewriteOne vmi hasShared v =
      { v with volumeSource :=
        { persistentVolumeClaim := none,
          hostDisk := some
            { path := getPVCDiskImgPath v.name "disk.img",
              typ := HostDiskExistsOrCreate,
              capacity := info.capacityStorage,
              shared := some (hasShared info.accessModes) } } } := by
  unfold specRewriteOne
  rw [he, hl]
  dsimp only
  rw [hi]
  rfl

theorem pvcVolumeLookup_info_isSome (vmi : VMI) (n : String) (st : VolumeStatus)
    (h : pvcVolumeLookup vmi n = some st) :
    st.persistentVolumeClaimInfo.isSome = true := by
  unfold pvcVolumeLookup at h
  have hmem : st ∈ vmi.volumeStatus.filter
      (fun s => s.persistentVolumeClaimInfo.isSome && s.name == n) := by
    rcases List.mem_getLast?_eq_getLast (Option.mem_def.mpr h) with ⟨hne, heq⟩
    rw [heq]
    exact List.getLast_mem hne
  have hp := (List.mem_filter.mp hmem).2
  exact (Bool.and_eq_true_iff.mp hp).1

theorem specEligible_unpack (vmi : VMI) (v : Volume)
    (h : specEligibleForRewrite vmi v = true) :
    v.volumeSource.persistentVolumeClaim.isSome = true ∧
    isPassthoughFSVolume vmi v.name = false ∧
    isHotplugVolume vmi v.name = false ∧
    ∃ st info, pvcVolumeLookup vmi v.name = some st ∧
      st.persistentVolumeClaimInfo = some info ∧
      info.volumeMode = some .Filesystem := by
  unfold specEligibleForRewrite at h
  rw [Bool.and_eq_true, Bool.and_eq_true, Bool.and_eq_true] at h
  obtain ⟨⟨⟨h1, h2⟩, h3⟩, h4⟩ := h
  refine ⟨h1, by simpa using h2, by simpa using h3, ?_⟩
  cases hl : pvcVolumeLookup vmi v.name with
  | none =>
    rw [hl] at h4
    simp at h4
  | some st =>
    rw [hl] at h4
    dsimp only at h4
    cases hi : st.persistentVolumeClaimInfo with
    | none =>
      rw [hi] at h4
      simp at h4
    | some info =>
      rw [hi] at h4
      dsimp only at h4
      refine ⟨st, info, rfl, hi, ?_⟩
      cases hm : info.volumeMode with
      | none =>
        rw [hm] at h4
        exact absurd h4 (by decide)
      | some m =>
        cases m with
        | Block =>
          rw [hm] at h4
          exact absurd h4 (by decide)
        | Filesystem => rfl

theorem replaceVolumesLoop_cons_ok (vmi : VMI) (hasShared : List String → Bool)
    (own : String → OwnResult) (u : Volume) (us : List Volume)
    (hu : ∀ e2, own (getPVCDiskImgPath u.name "disk.img") ≠ .errOther e2) :
    replaceVolumesLoop vmi hasShared own (u :: us) =
      (specRewriteOne vmi hasShared u :: (replaceVolumesLoop vmi hasShared own us).1,
        (replaceVolumesLoop vmi hasShared own us).2) := by
  simp only [replaceVolumesLoop]
  cases hpvc : u.volumeSource.persistentVolumeClaim with
  | none =>
    rw [specRewriteOne_not_eligible vmi hasShared u
      (by simp [specEligibleForRewrite, hpvc])]
  | some c =>
    dsimp only
    cases hpass : isPassthoughFSVolume vmi u.name with
    | true =>
      rw [if_pos rfl]
      rw [specRewriteOne_not_eligible vmi hasShared u
        (by simp [specEligibleForRewrite, hpass])]
    | false =>
      rw [if_neg (by simp)]
      cases hhot : isHotplugVolume vmi u.name with
      | true =>
        rw [if_pos rfl]
        rw [specRewriteOne_not_eligible vmi hasShared u
          (by simp [specEligibleForRewrite, hhot])]
      | false =>
        rw [if_neg (by simp)]
        cases hl : pvcVolumeLookup vmi u.name with
        | none =>
          dsimp only
          rw [specRewriteOne_not_eligible vmi hasShared u
            (by simp [specEligibleForRewrite, hl])]
        | some st =>
          dsimp only
          cases hi : st.persistentVolumeClaimInfo with
          | none =>
            dsimp only
            rw [specRewriteOne_not_eligible vmi hasShared u
              (by simp [specEligibleForRewrite, hl, hi])]
          | some info =>
            dsimp only
            by_cases hm : info.volumeMode = none ∨ info.volumeMode = some .Block
            · rw [if_pos hm]
              rw [specRewriteOne_not_eligible vmi hasShared u
                (by rcases hm with h | h <;>
                  simp [specEligibleForRewrite, hl, hi, h])]
            · rw [if_neg hm]
              have hmf : info.volumeMode = some .Filesystem := by
                cases hmode : info.volumeMode with
                | none => exact absurd (Or.inl hmode) hm
                | some m =>
                  cases m with
                  | Block => exact absurd (Or.inr hmode) hm
                  | Filesystem => rfl
              have helig : specEligibleForRewrite vmi u = true := by
                simp [specEligibleForRewrite, hpvc, hpass, hhot, hl, hi, hmf]
              rw [specRewriteOne_eligible vmi hasShared u st info hl hi helig]

theorem replaceVolumesLoop_cons_fatal (vmi : VMI) (hasShared : List String → Bool)
    (own : String → OwnResult) (v : Volume) (vs : List Volume) (e : String)
    (helig : specEligibleForRewrite vmi v = true)
    (hfail : own (getPVCDiskImgPath v.name "disk.img") = .errOther e) :
    replaceVolumesLoop vmi hasShared own (v :: vs) =
      (specRewriteOne vmi hasShared v :: vs, some e) := by
  obtain ⟨h1, h2, h3, st, info, hl, hi, hmf⟩ := specEligible_unpack vmi v helig
  obtain ⟨c, hpvc⟩ := Option.isSome_iff_exists.mp h1
  simp only [replaceVolumesLoop]
  rw [hpvc]
  dsimp only
  rw [if_neg (by simp [h2]), if_neg (by simp [h3]), hl]
  dsimp only
  rw [hi]
  dsimp only
  rw [if_neg (by simp [hmf]), hfail]
  dsimp only
  rw [specRewriteOne_eligible vmi hasShared v st info hl hi helig]

theorem replaceVolumesLoop_no_fatal (vmi : VMI) (hasShared : List String → Bool)
    (own : String → OwnResult) (vs : List Volume)
    (hown : ∀ u ∈ vs, ∀ e, own (getPVCDiskImgPath u.name "disk.img") ≠ .errOther e) :
    replaceVolumesLoop vmi hasShared own vs =
      (vs.map (specRewriteOne vmi hasShared), none) := by
  induction vs with
  | nil => rfl
  | cons u us ih =>
    rw [replaceVolumesLoop_cons_ok vmi hasShared own u us (hown u (by simp)),
      ih (fun w hw ee => hown w (by simp [hw]) ee)]
    simp

theorem replaceVolumesLoop_upto_fatal (vmi : VMI)
    (hasShared : List String → Bool) (own : String → OwnResult)
    (vs1 : List Volume) (v : Volume) (vs2 : List Volume) (e : String)
    (h1 : ∀ u ∈ vs1, ∀ e2, own (getPVCDiskImgPath u.name "disk.img") ≠ .errOther e2)
    (helig : specEligibleForRewrite vmi v = true)
    (hfail : own (getPVCDiskImgPath v.name "disk.img") = .errOther e) :
    replaceVolumesLoop vmi hasShared own (vs1 ++ v :: vs2) =
      (vs1.map (specRewriteOne vmi hasShared) ++
        specRewriteOne vmi hasShared v :: vs2, some e) := by
  induction vs1 with
  | nil =>
    simpa using replaceVolumesLoop_cons_fatal vmi hasShared own v vs2 e helig hfail
  | cons u us ih =>
    rw [List.cons_append,
      replaceVolumesLoop_cons_ok vmi hasShared own u (us ++ v :: vs2) (h1 u (by simp)),
      ih (fun w hw e2 => h1 w (by simp [hw]) e2)]
    simp

/-- **C2**: on a run without fatal ownership errors, `ReplacePVCByHostDisk`
rewrites a volume exactly when it is PVC-backed, not named by a
filesystem-passthrough declaration, not hotplugged, and its status reports
Filesystem volume mode; the rewritten volume has its PVC source cleared and a
HostDisk with path `baseDir/volumeName/disk.img`, type `ExistsOrCreate`,
capacity from the status storage capacity and `Shared` derived from the
access modes; every other volume is untouched. -/
theorem rewrite_selectivity (vmi : VMI) (hasShared : List String → Bool)
    (own : String → OwnResult)
    (hown : ∀ p e, own p ≠ .errOther e) :
    ReplacePVCByHostDisk hasShared own vmi =
      ({ vmi with volumes := vmi.volumes.map (specRewriteOne vmi hasShared) },
        none) := by
  unfold ReplacePVCByHostDisk
  rw [replaceVolumesLoop_no_fatal vmi hasShared own vmi.volumes
    (fun u _ e => hown _ e)]

/-- **C10**: when the ownership call fails fatally on an eligible volume, the
rewrite aborts with that error but the in-place mutation has already
happened: the failing volume's PVC source is cleared and its HostDisk source
set, all eligible earlier volumes remain rewritten, and later volumes are
returned untouched — the error restores nothing. -/
theorem rewrite_not_atomic (vmi : VMI) (hasShared : List String → Bool)
    (own : String → OwnResult) (vs1 : List Volume) (v : Volume)
    (vs2 : List Volume) (e : String)
    (hvols : vmi.volumes = vs1 ++ v :: vs2)
    (h1 : ∀ u ∈ vs1, ∀ e2, own (getPVCDiskImgPath u.name "disk.img") ≠ .errOther e2)
    (helig : specEligibleForRewrite vmi v = true)
    (hfail : own (getPVCDiskImgPath v.name "disk.img") = .errOther e) :
    ReplacePVCByHostDisk hasShared own vmi =
      ({ vmi with volumes := vs1.map (specRewriteOne vmi hasShared) ++
          specRewriteOne vmi hasShared v :: vs2 }, some e) ∧
    (specRewriteOne vmi hasShared v).volumeSource.persistentVolumeClaim = none ∧
    (∃ hd, (specRewriteOne vmi hasShared v).volumeSource.hostDisk = some hd) := by
  obtain ⟨hp1, hp2, hp3, st, info, hl, hi, hmf⟩ := specEligible_unpack vmi v helig
  have hrew := specRewriteOne_eligible vmi hasShared v st info hl hi helig
  refine ⟨?_, ?_, ?_⟩
  · unfold ReplacePVCByHostDisk
    rw [hvols, replaceVolumesLoop_upto_fatal vmi hasShared own vs1 v vs2 e h1
      helig hfail]
  · rw [hrew]
  · rw [hrew]
    exact ⟨_, rfl⟩

theorem createVolumes_cons_err (hdc : DiskImgCreator) (env : FsEnv) (v : Volume)
    (vs : List Volume) (effs : List Effect) (e : CreateErr)
    (h : processVolume hdc env v = (effs, some e)) :
    createVolumes hdc env (v :: vs) = (effs, some e) := by
  unfold createVolumes
  rw [h]

theorem createVolumes_cons_ok (hdc : DiskImgCreator) (env : FsEnv) (v : Volume)
    (vs : List Volume) (effs : List Effect)
    (h : processVolume hdc env v = (effs, none)) :
    createVolumes hdc env (v :: vs) =
      (effs ++ (createVolumes hdc env vs).1, (createVolumes hdc env vs).2) := by
  conv_lhs => rw [createVolumes]
  rw [h]

theorem mount_of_exists (hdc : DiskImgCreator) (env : FsEnv)
    (volumeName : String) (hd : HostDisk)
    (hex : env.fileExists (GetMountedHostDiskPath volumeName hd.path) = .ok true) :
    (mountHostDiskAndSetOwnership hdc env volumeName hd).1 =
      [.chown (GetMountedHostDiskPath volumeName hd.path)] ∧
    (env.ownership (GetMountedHostDiskPath volumeName hd.path) = .ok →
      (mountHostDiskAndSetOwnership hdc env volumeName hd).2 = none) := by
  have hred : mountHostDiskAndSetOwnership hdc env volumeName hd =
      (([] : List Effect) ++ [.chown (GetMountedHostDiskPath volumeName hd.path)],
        match env.ownership (GetMountedHostDiskPath volumeName hd.path) with
        | .ok => none
        | .errNotExist =>
          some (.ownershipErr (GetMountedHostDiskPath volumeName hd.path))
        | .errOther _ =>
          some (.ownershipErr (GetMountedHostDiskPath volumeName hd.path))) := by
    simp only [mountHostDiskAndSetOwnership, hex]
    cases env.ownership (GetMountedHostDiskPath volumeName hd.path) <;> simp
  rw [hred]
  constructor
  · simp
  · intro hok
    rw [hok]

theorem createVolumes_idem (hdc : DiskImgCreator) (env : FsEnv) (vs : List Volume)
    (hex : ∀ v ∈ vs, ∀ hd, v.volumeSource.hostDisk = some hd →
      shouldMountHostDisk (some hd) = true →
      env.fileExists (GetMountedHostDiskPath v.name hd.path) = .ok true) :
    (∀ e ∈ (createVolumes hdc env vs).1, ∃ p, e = Effect.chown p) ∧
    ((∀ p, env.ownership p = .ok) → (createVolumes hdc env vs).2 = none) := by
  induction vs with
  | nil =>
    constructor
    · intro e he
      simp [createVolumes] at he
    · intro _
      rfl
  | cons v vs ih =>
    have ih2 := ih (fun w hw hd2 hhd2 hsm2 =>
      hex w (List.mem_cons_of_mem _ hw) hd2 hhd2 hsm2)
    by_cases hsm : shouldMountHostDisk v.volumeSource.hostDisk = true
    · obtain ⟨hd, hhd⟩ : ∃ hd, v.volumeSource.hostDisk = some hd := by
        cases h : v.volumeSource.hostDisk with
        | none =>
          rw [h] at hsm
          simp [shouldMountHostDisk] at hsm
        | some hd => exact ⟨hd, rfl⟩
      have hfe := hex v (by simp) hd hhd (by rw [← hhd]; exact hsm)
      have hm := mount_of_exists hdc env v.name hd hfe
      have hpv : processVolume hdc env v
          = mountHostDiskAndSetOwnership hdc env v.name hd := by
        unfold processVolume
        rw [if_pos hsm, hhd]
      rcases hmr : mountHostDiskAndSetOwnership hdc env v.name hd with ⟨effs, res⟩
      have heffs : effs = [.chown (GetMountedHostDiskPath v.name hd.path)] := by
        have h1 := hm.1
        rw [hmr] at h1
        exact h1
      cases res with
      | some err =>
        rw [createVolumes_cons_err hdc env v vs effs err (by rw [hpv, hmr])]
        constructor
        · intro e he
          rw [heffs] at he
          simp at he
          exact ⟨_, he⟩
        · intro hallok
          have h2 := hm.2 (hallok _)
          rw [hmr] at h2
          simp at h2
      | none =>
        rw [createVolumes_cons_ok hdc env v vs effs (by rw [hpv, hmr])]
        constructor
        · intro e he
          simp only [heffs] at he
          rcases List.mem_append.mp he with h | h
          · simp at h
            exact ⟨_, h⟩
          · exact ih2.1 e h
        · intro hallok
          exact ih2.2 hallok
    · have hpv : processVolume hdc env v = ([], none) := by
        unfold processVolume
        rw [if_neg hsm]
      rw [createVolumes_cons_ok hdc env v vs [] hpv]
      constructor
      · intro e he
        simp only [List.nil_append] at he
        exact ih2.1 e he
      · intro hallok
        exact ih2.2 hallok

/-- **C3**: when every volume's target disk image already exists, `Create`
performs no capacity probe, no size resolution and no sparse allocation —
its trace holds only ownership changes (so an existing file's size and
modification time are never touched), and with ownership succeeding it
returns no error: re-invoking `Create` on a materialized volume set is a
file-level no-op. -/
theorem create_idempotent (hdc : DiskImgCreator) (env : FsEnv) (vmi : VMI)
    (hex : ∀ v ∈ vmi.volumes, ∀ hd, v.volumeSource.hostDisk = some hd →
      shouldMountHostDisk (some hd) = true →
      env.fileExists (GetMountedHostDiskPath v.name hd.path) = .ok true) :
    (∀ e ∈ (Create hdc env vmi).1, ∃ p, e = Effect.chown p) ∧
    ((∀ p, env.ownership p = .ok) → (Create hdc env vmi).2 = none) :=
  createVolumes_idem hdc env vmi.volumes hex

theorem createVolumes_failfast (hdc : DiskImgCreator) (env : FsEnv)
    (v : Volume) (vs2 : List Volume) (t : List Effect) (e : CreateErr)
    (h2 : processVolume hdc env v = (t, some e)) :
    ∀ vs1 : List Volume, (∀ u ∈ vs1, (processVolume hdc env u).2 = none) →
    createVolumes hdc env (vs1 ++ v :: vs2) =
      ((vs1.map (fun u => (processVolume hdc env u).1)).flatten ++ t, some e) := by
  intro vs1
  induction vs1 with
  | nil =>
    intro _
    rw [List.nil_append, createVolumes_cons_err hdc env v vs2 t e h2]
    simp
  | cons u us ih =>
    intro h1
    have hu := h1 u (by simp)
    have hup : processVolume hdc env u = ((processVolume hdc env u).1, none) := by
      rw [← hu]
    rw [List.cons_append,
      createVolumes_cons_ok hdc env u (us ++ v :: vs2) _ hup,
      ih (fun w hw => h1 w (List.mem_cons_of_mem _ hw))]
    simp

/-- **C4**: `Create` walks the declared volume list in order and is
fail-fast: if the volume `v` fails while all volumes before it succeed, the
returned trace is exactly the effects of the preceding volumes followed by
`v`'s effects with `v`'s error — independent of the volumes after `v`, which
are never touched, while the preceding volumes' materializations remain (no
rollback). -/
theorem create_failfast (hdc : DiskImgCreator) (env : FsEnv) (vmi : VMI)
    (vs1 : List Volume) (v : Volume) (vs2 : List Volume)
    (t : List Effect) (e : CreateErr)
    (hvols : vmi.volumes = vs1 ++ v :: vs2)
    (h1 : ∀ u ∈ vs1, (processVolume hdc env u).2 = none)
    (h2 : processVolume hdc env v = (t, some e)) :
    Create hdc env vmi =
      ((vs1.map (fun u => (processVolume hdc env u).1)).flatten ++ t, some e) := by
  unfold Create
  rw [hvols]
  exact createVolumes_failfast hdc env v vs2 t e h2 vs1 h1

theorem events_createSparseRaw (env : FsEnv) (p : String) (sz : Int)
    (sev r m : String) :
    Effect.event sev r m ∉ (createSparseRaw env p sz).1 := by
  unfold createSparseRaw
  cases env.createErr p with
  | some e => simp
  | none =>
    dsimp only
    by_cases h : sz - 1 < 0
    · rw [if_pos h]
      simp
    · rw [if_neg h]
      cases env.writeErr p <;> simp

theorem events_handle (hdc : DiskImgCreator) (env : FsEnv) (dd dp : String)
    (hd : HostDisk) (sev r m : String)
    (hmem : Effect.event sev r m ∈
      (handleRequestedSizeAndCreateSparseRaw hdc env dd dp hd).1) :
    sev = EventTypeToleratedSmallPV ∧ r = EventReasonToleratedSmallPV := by
  revert hmem
  simp only [handleRequestedSizeAndCreateSparseRaw]
  cases hav : env.bytesAvail dd hdc.minimumPVCReserveBytes with
  | error e =>
    intro hmem
    simp at hmem
  | ok size =>
    dsimp only
    by_cases hgt : hd.capacity > toInt64ofUInt64 size
    · rw [if_pos hgt, shrinkRequestedSize_eq]
      by_cases htol : divInt64 (mulInt64 hd.capacity
          (wrapInt64 (100 - hdc.lessPVCSpaceToleration))) 100
          > toInt64ofUInt64 size
      · rw [if_pos htol]
        dsimp only
        intro hmem
        simp at hmem
      · rw [if_neg htol]
        dsimp only
        intro hmem
        rcases List.mem_append.mp hmem with h | h
        · simp at h
          exact ⟨h.1, h.2.1⟩
        · exact absurd h
            (events_createSparseRaw env dp (toInt64ofUInt64 size) sev r m)
    · rw [if_neg hgt]
      intro hmem
      dsimp only at hmem
      rcases List.mem_append.mp hmem with h | h
      · simp at h
      · exact absurd h (events_createSparseRaw env dp hd.capacity sev r m)

theorem events_mount (hdc : DiskImgCreator) (env : FsEnv)
    (volumeName : String) (hd : HostDisk) (sev r m : String)
    (hmem : Effect.event sev r m ∈
      (mountHostDiskAndSetOwnership hdc env volumeName hd).1) :
    sev = EventTypeToleratedSmallPV ∧ r = EventReasonToleratedSmallPV := by
  revert hmem
  simp only [mountHostDiskAndSetOwnership]
  cases hfe : env.fileExists (GetMountedHostDiskPath volumeName hd.path) with
  | error e =>
    intro hmem
    simp at hmem
  | ok fe =>
    cases fe with
    | true =>
      dsimp only
      rw [if_pos rfl]
      cases env.ownership (GetMountedHostDiskPath volumeName hd.path) <;>
        · intro hmem
          simp at hmem
    | false =>
      dsimp only
      rw [if_neg (by simp)]
      cases hh : handleRequestedSizeAndCreateSparseRaw hdc env
          (GetMountedHostDiskDir volumeName)
          (GetMountedHostDiskPath volumeName hd.path) hd with
      | mk effs res =>
        dsimp only
        cases res with
        | some e =>
          intro hmem
          refine events_handle hdc env (GetMountedHostDiskDir volumeName)
            (GetMountedHostDiskPath volumeName hd.path) hd sev r m ?_
          rw [hh]
          exact hmem
        | none =>
          cases env.ownership (GetMountedHostDiskPath volumeName hd.path) <;>
            · intro hmem
              dsimp only at hmem
              rcases List.mem_append.mp hmem with h | h
              · refine events_handle hdc env (GetMountedHostDiskDir volumeName)
                  (GetMountedHostDiskPath volumeName hd.path) hd sev r m ?_
                rw [hh]
                exact h
              · simp at h

theorem events_createVolumes (hdc : DiskImgCreator) (env : FsEnv)
    (vs : List Volume) (sev r m : String)
    (hmem : Effect.event sev r m ∈ (createVolumes hdc env vs).1) :
    sev = EventTypeToleratedSmallPV ∧ r = EventReasonToleratedSmallPV := by
  induction vs with
  | nil => simp [createVolumes] at hmem
  | cons v vs ih =>
    have hstep : ∀ hmem2 : Effect.event sev r m ∈ (processVolume hdc env v).1,
        sev = EventTypeToleratedSmallPV ∧ r = EventReasonToleratedSmallPV := by
      intro hmem2
      unfold processVolume at hmem2
      by_cases hsm : shouldMountHostDisk v.volumeSource.hostDisk = true
      · rw [if_pos hsm] at hmem2
        cases hhd : v.volumeSource.hostDisk with
        | none =>
          rw [hhd] at hmem2
          simp at hmem2
        | some hd =>
          rw [hhd] at hmem2
          exact events_mount hdc env v.name hd sev r m hmem2
      · rw [if_neg hsm] at hmem2
        simp at hmem2
    cases hpv : processVolume hdc env v with
    | mk effs res =>
      cases res with
      | some e =>
        rw [createVolumes_cons_err hdc env v vs effs e hpv] at hmem
        exact hstep (by rw [hpv]; exact hmem)
      | none =>
        rw [createVolumes_cons_ok hdc env v vs effs hpv] at hmem
        rcases List.mem_append.mp hmem with h | h
        · exact hstep (by rw [hpv]; exact h)
        · exact ih h

/-- A concrete environment for witness evaluations: every file absent, 1000
bytes reported available, all I/O succeeding, notifier succeeding. -/
def witEnv : FsEnv where
  fileExists := fun _ => .ok false
  bytesAvail := fun _ _ => .ok 1000
  createErr := fun _ => none
  writeErr := fun _ => none
  ownership := fun _ => .ok
  sendEvent := fun _ _ _ => none

/-- Like `witEnv` but every file already exists. -/
def witEnvExists : FsEnv :=
  { witEnv with fileExists := fun _ => .ok true }

/-- A HostDisk of the given capacity at a fixed path. -/
def witHD (cap : Int) : HostDisk :=
  { path := "/data/disk.img", typ := HostDiskExistsOrCreate,
    capacity := cap, shared := none }

/-- A single-volume VMI whose volume requests more capacity (1040 B) than
`witEnv` reports available (1000 B), within 5% toleration. -/
def witVMI : VMI :=
  { volumes := [⟨"v1", ⟨none, some (witHD 1040)⟩⟩],
    filesystems := [],
    volumeStatus := [] }

/-- **C6** (counterexample): in a concrete tolerated shrink the emitted
event's severity is the constant `EventTypeToleratedSmallPV`, whose value is
the string "Normal" — not "Warning" — so the claim that the notifier is
handed Warning severity is false on this code. -/
theorem tolerated_event_not_warning :
    (shrinkRequestedSize ⟨5, 0⟩ witEnv 1040 1000 (witHD 1040)).1 =
      [.event "Normal" "ToleratedSmallPV" (shrinkMsg 1040 1000 5)] ∧
    EventTypeToleratedSmallPV = "Normal" ∧
    ("Normal" : String) ≠ "Warning" := by
  refine ⟨rfl, rfl, by decide⟩

/-- **C6** (amended): every event `Create` sends through the notifier — in
particular the `ToleratedSmallPV` event of a tolerated shrink — carries
severity `EventTypeToleratedSmallPV` = `k8sv1.EventTypeNormal` ("Normal"),
not Warning, and reason "ToleratedSmallPV". -/
theorem tolerated_event_severity (hdc : DiskImgCreator) (env : FsEnv)
    (vmi : VMI) (sev r m : String)
    (hmem : Effect.event sev r m ∈ (Create hdc env vmi).1) :
    sev = EventTypeToleratedSmallPV ∧ sev = "Normal" ∧
      r = EventReasonToleratedSmallPV := by
  have h := events_createVolumes hdc env vmi.volumes sev r m hmem
  exact ⟨h.1, h.1, h.2⟩

theorem tolerated_event_severity_witness :
    ("Normal" : String) = EventTypeToleratedSmallPV ∧
      ("Normal" : String) = "Normal" ∧
      ("ToleratedSmallPV" : String) = EventReasonToleratedSmallPV :=
  tolerated_event_severity ⟨5, 0⟩ witEnv witVMI "Normal" "ToleratedSmallPV"
    (shrinkMsg 1040 1000 5) (by decide)

theorem exact_sizing_witness :
    mountHostDiskAndSetOwnership ⟨5, 0⟩ witEnv "v1" (witHD 512) =
      ([.probe (GetMountedHostDiskDir "v1") 0,
        .createFile (GetMountedHostDiskPath "v1" (witHD 512).path),
        .alloc (GetMountedHostDiskPath "v1" (witHD 512).path) (witHD 512).capacity,
        .chown (GetMountedHostDiskPath "v1" (witHD 512).path)], none) :=
  (exact_sizing ⟨5, 0⟩ witEnv "v1" (witHD 512) 1000 rfl rfl (by norm_num)
    (by decide) (by decide) rfl rfl rfl).1

theorem toleration_shrink_behavior_witness :
    mountHostDiskAndSetOwnership ⟨5, 0⟩ witEnv "v1" (witHD 1040) =
      ([.probe (GetMountedHostDiskDir "v1") 0,
        .event EventTypeToleratedSmallPV EventReasonToleratedSmallPV
          (shrinkMsg (witHD 1040).capacity ((1000 : Nat) : Int) 5),
        .createFile (GetMountedHostDiskPath "v1" (witHD 1040).path),
        .alloc (GetMountedHostDiskPath "v1" (witHD 1040).path) ((1000 : Nat) : Int),
        .chown (GetMountedHostDiskPath "v1" (witHD 1040).path)], none) :=
  (toleration_shrink_behavior ⟨5, 0⟩ witEnv "v1" (witHD 1040) 1000 rfl rfl
    (by norm_num) (by decide) (by decide) (by decide) (by decide)
    (by decide)).2.1 (by decide) (by decide) rfl rfl rfl

theorem create_idempotent_witness :
    (∀ e ∈ (Create ⟨5, 0⟩ witEnvExists witVMI).1, ∃ p, e = Effect.chown p) ∧
      ((∀ p, witEnvExists.ownership p = .ok) →
        (Create ⟨5, 0⟩ witEnvExists witVMI).2 = none) :=
  create_idempotent ⟨5, 0⟩ witEnvExists witVMI
    (fun _ _ _ _ _ => rfl)

/-- Fixtures for the fail-fast witness: the second of three volumes requests
2000 B against 1000 B available, beyond 5% toleration. -/
def witVolA : Volume := ⟨"v1", ⟨none, some (witHD 512)⟩⟩

def witVolB : Volume := ⟨"v2", ⟨none, some (witHD 2000)⟩⟩

def witVolC : Volume := ⟨"v3", ⟨none, some (witHD 512)⟩⟩

def witVMI3 : VMI := ⟨[witVolA, witVolB, witVolC], [], []⟩

theorem create_failfast_witness :
    Create ⟨5, 0⟩ witEnv witVMI3 =
      (([witVolA].map (fun u => (processVolume ⟨5, 0⟩ witEnv u).1)).flatten ++
        [Effect.probe (GetMountedHostDiskDir "v2") 0],
        some (.notEnoughSpace "/data/disk.img" 2000 1000 5)) :=
  create_failfast ⟨5, 0⟩ witEnv witVMI3 [witVolA] witVolB [witVolC]
    [Effect.probe (GetMountedHostDiskDir "v2") 0]
    (.notEnoughSpace "/data/disk.img" 2000 1000 5)
    rfl
    (by intro u hu; rw [List.mem_singleton] at hu; subst hu; rfl)
    rfl

/-- Fixtures for the rewriter witnesses: a Filesystem-mode PVC volume, a
Block-mode PVC volume, and a passthrough-named PVC volume. -/
def witInfoFS : PersistentVolumeClaimInfo :=
  ⟨some .Filesystem, ["ReadWriteMany"], 1024⟩

def witInfoBlock : PersistentVolumeClaimInfo := ⟨some .Block, [], 2048⟩

def witStatusFS : VolumeStatus := ⟨"pvc1", false, some witInfoFS⟩

def witStatusBlock : VolumeStatus := ⟨"pvc2", false, some witInfoBlock⟩

def witPvcVol1 : Volume := ⟨"pvc1", ⟨some "claim1", none⟩⟩

def witPvcVol2 : Volume := ⟨"pvc2", ⟨some "claim2", none⟩⟩

def witPvcVol3 : Volume := ⟨"fsdev", ⟨some "claim3", none⟩⟩

def witVMIRewrite : VMI :=
  ⟨[witPvcVol1, witPvcVol2, witPvcVol3], ["fsdev"],
    [witStatusFS, witStatusBlock]⟩

/-- Models `types.HasSharedAccessMode` for witnesses: any access mode equal
to ReadWriteMany. -/
def witShared : List String → Bool :=
  fun ams => ams.any (fun m => m == "ReadWriteMany")

def witOwnOk : String → OwnResult := fun _ => .ok

def witOwnFail : String → OwnResult := fun _ => .errOther "chown failed"

theorem rewrite_selectivity_witness :
    ReplacePVCByHostDisk witShared witOwnOk witVMIRewrite =
      ({ witVMIRewrite with volumes :=
          witVMIRewrite.volumes.map (specRewriteOne witVMIRewrite witShared) },
        none) :=
  rewrite_selectivity witVMIRewrite witShared witOwnOk
    (fun _ _ h => OwnResult.noConfusion h)

theorem rewrite_not_atomic_witness :
    (ReplacePVCByHostDisk witShared witOwnFail witVMIRewrite =
      ({ witVMIRewrite with volumes :=
          (([] : List Volume).map (specRewriteOne witVMIRewrite witShared) ++
            specRewriteOne witVMIRewrite witShared witPvcVol1 ::
              [witPvcVol2, witPvcVol3]) }, some "chown failed")) ∧
    (specRewriteOne witVMIRewrite witShared
      witPvcVol1).volumeSource.persistentVolumeClaim = none ∧
    (∃ hd, (specRewriteOne witVMIRewrite witShared
      witPvcVol1).volumeSource.hostDisk = some hd) :=
  rewrite_not_atomic witVMIRewrite witShared witOwnFail [] witPvcVol1
    [witPvcVol2, witPvcVol3] "chown failed" rfl
    (fun u hu => absurd hu (List.not_mem_nil u))
    (by decide)
    rfl
